import Mathlib

set_option linter.unusedSectionVars false

/-!
Shallow embedding of `src/tmsarray.hpp` (`template <typename Valtype> class TMSArray`),
a resizable contiguous-storage container with fields `_capacity`, `_size`, `_data`.

Modelling conventions:
* `_data` is `Option (List α)`: `none` models the null pointer, `some l` models an
  owned buffer whose `l.length` slots are the allocation (`new value_type[n]`).
* `new value_type[n]` is modelled as `List.replicate n default` (the model never
  relies on the contents of slots beyond the live range, matching the code, which
  leaves them unspecified for scalar element types).
* Iterators are modelled as `Nat` offsets from `begin()`; the code itself converts
  `pos` to `diff = pos - begin()` before any reallocation can happen.
* `std::copy(src.begin(), src.end(), dst)` over a buffer is `copyInto`:
  the source list overwrites a prefix of the destination buffer.
* `std::rotate(first, middle, last)` on the buffer is `rotateList l f m last`:
  the segment `[f, last)` becomes `[m, last) ++ [f, m)`.
* Element-copy failure (for exception-safety claims) is modelled by `copyElems`,
  which copies elements left to right and fails at the first element on which the
  oracle `failOn` is true, mirroring a throwing element copy inside `std::copy`.
-/

structure TMSArray (α : Type) where
  raw ::
  _capacity : Nat
  _size : Nat
  _data : Option (List α)
deriving Repr, DecidableEq

namespace TMSArray

variable {α : Type} [Inhabited α]

/-- Capacity of a default-constructed object: `enum { DEFAULT_CAP = 42 }`. -/
def DEFAULT_CAP : Nat := 42

/-- Models `new value_type[n]`: a fresh buffer of `n` slots. -/
def newBuf (n : Nat) : List α := List.replicate n default

/-- Models `std::copy(src.begin(), src.end(), dstBuffer)`: the elements of `src`
overwrite the first `src.length` slots of the destination buffer. -/
def copyInto (src dst : List α) : List α := src ++ dst.drop src.length

/-- Models `std::rotate(begin()+f, begin()+m, begin()+last)` acting on the buffer
list: the segment `[f, last)` is replaced by `[m, last) ++ [f, m)`. -/
def rotateList (l : List α) (f m last : Nat) : List α :=
  l.take f ++ ((l.take last).drop m) ++ ((l.take m).drop f) ++ l.drop last

/-- The buffer contents as a list (`[]` when `_data` is the null pointer). -/
def dataList (a : TMSArray α) : List α := a._data.getD []

/-- `size() const` -/
def size (a : TMSArray α) : Nat := a._size

/-- `empty() const`: returns `size() == 0`. -/
def empty (a : TMSArray α) : Bool := a.size == 0

/-- `end()` as an offset from `begin()`: `begin() + size()`. -/
def endPos (a : TMSArray α) : Nat := a.size

/-- The live element sequence `[begin(), end())`. -/
def live (a : TMSArray α) : List α := a.dataList.take a._size

/-- Representation invariant of the class (its documented invariant):
`0 <= _size <= _capacity`, `_data` is non-null exactly when `_capacity > 0`,
and the allocation holds exactly `_capacity` slots. -/
def wf (a : TMSArray α) : Prop :=
  a._size ≤ a._capacity ∧
  (a._data.isSome = true ↔ 0 < a._capacity) ∧
  a.dataList.length = a._capacity

instance (a : TMSArray α) : Decidable (wf a) := by
  unfold wf; infer_instance

/-- The invariant exactly as the spec's data-model section states it:
`0 <= length <= capacity`; storage non-null whenever `capacity > 0`;
storage is the empty sentinel whenever `capacity == 0`. -/
def claimInv (a : TMSArray α) : Prop :=
  a._size ≤ a._capacity ∧
  (0 < a._capacity → a._data.isSome = true) ∧
  (a._capacity = 0 → a._data = none)

/-- `explicit TMSArray(size_type thesize=0)`:
`_capacity = max(thesize, DEFAULT_CAP)`, `_size = thesize`,
`_data = _capacity == 0 ? nullptr : new value_type[_capacity]`. -/
def mk (thesize : Nat := 0) : TMSArray α :=
  let cap := max thesize DEFAULT_CAP
  { _capacity := cap
  , _size := thesize
  , _data := if cap = 0 then none else some (newBuf cap) }

/-- Copy constructor `TMSArray(const TMSArray & other)`: allocate a fresh buffer of
`other._capacity` slots (null when that capacity is `0`) and
`std::copy(other.begin(), other.end(), begin())` into it. -/
def copyCtor (other : TMSArray α) : TMSArray α :=
  { _capacity := other._capacity
  , _size := other.size
  , _data := if other._capacity = 0 then none
             else some (copyInto other.live (newBuf other._capacity)) }

/-- Move constructor `TMSArray(TMSArray && other)`: steal the three members, then
reset `other` to `{0, 0, nullptr}`. Returns (constructed object, residual source). -/
def moveCtor (other : TMSArray α) : TMSArray α × TMSArray α :=
  ({ _capacity := other._capacity, _size := other._size, _data := other._data },
   { _capacity := 0, _size := 0, _data := none })

/-- `swap(TMSArray & other)`: exchanges `_capacity`, `_size`, `_data` memberwise.
Returns the pair (new state of `*this`, new state of `other`). -/
def swapOp (a other : TMSArray α) : TMSArray α × TMSArray α := (other, a)

/-- Copy assignment `operator=(const TMSArray & other)`:
`TMSArray copy(other); swap(copy);` — the result is the new state of `*this`
(the temporary is destroyed holding the old state). -/
def assignCopy (lhs other : TMSArray α) : TMSArray α :=
  let copy := copyCtor other
  (swapOp lhs copy).1

/-- Move assignment `operator=(TMSArray && other)`: `swap(other)`.
Returns (new state of `*this`, new state of `other`). -/
def assignMove (lhs other : TMSArray α) : TMSArray α × TMSArray α :=
  swapOp lhs other

/-- `resize(size_type newsize)`: if `newsize > _capacity`, allocate
`newCapacity = max(_capacity * 2, newsize)` slots, copy the live range into the
new buffer, adopt it; in every case finish with `_size = newsize`. -/
def resize (a : TMSArray α) (newsize : Nat) : TMSArray α :=
  if newsize > a._capacity then
    let newCapacity := max (a._capacity * 2) newsize
    let newData := copyInto a.live (newBuf newCapacity)
    { _capacity := newCapacity, _size := newsize, _data := some newData }
  else
    { a with _size := newsize }

/-- `insert(iterator pos, const value_type & item)` with `diff = pos - begin()`:
`resize(size() + 1); _data[size()-1] = item; std::rotate(begin()+diff, end()-1, end());
return begin() + diff;`. Returns (new state, returned iterator offset). -/
def insert (a : TMSArray α) (diff : Nat) (item : α) : TMSArray α × Nat :=
  let a1 := a.resize (a.size + 1)
  let a2 : TMSArray α :=
    { a1 with _data := a1._data.map (fun l => l.set (a1.size - 1) item) }
  let a3 : TMSArray α :=
    { a2 with _data := a2._data.map (fun l => rotateList l diff (a2.size - 1) a2.size) }
  (a3, diff)

/-- `erase(iterator pos)` with `diff = pos - begin()`:
`std::rotate(pos, pos+1, end()); resize(size() - 1); return pos;`.
Returns (new state, returned iterator offset). -/
def erase (a : TMSArray α) (diff : Nat) : TMSArray α × Nat :=
  let a1 : TMSArray α :=
    { a with _data := a._data.map (fun l => rotateList l diff (diff + 1) a.endPos) }
  (a1.resize (a1.size - 1), diff)

/-- `push_back(const value_type & item)`: `insert(end(), item)`. -/
def push_back (a : TMSArray α) (item : α) : TMSArray α :=
  (a.insert a.endPos item).1

/-- `pop_back()`: `erase(end() - 1)`. -/
def pop_back (a : TMSArray α) : TMSArray α :=
  (a.erase (a.endPos - 1)).1

/-- Element-by-element copy that can fail: copies left to right and fails at the
first element on which `failOn` holds, modelling a throwing element copy
inside `std::copy`. -/
def copyElems (failOn : α → Bool) : List α → Except Unit (List α)
  | [] => Except.ok []
  | x :: xs =>
    if failOn x then Except.error ()
    else
      match copyElems failOn xs with
      | Except.error e => Except.error e
      | Except.ok ys => Except.ok (x :: ys)

/-- Copy constructor with a fallible element copy: on failure the partially built
buffer is released (`delete [] _data`) and the failure propagates; on success the
object is built exactly as `copyCtor` builds it. -/
def copyCtorE (other : TMSArray α) (failOn : α → Bool) : Except Unit (TMSArray α) :=
  match copyElems failOn other.live with
  | Except.error e => Except.error e
  | Except.ok ys =>
    Except.ok
      { _capacity := other._capacity
      , _size := other.size
      , _data := if other._capacity = 0 then none
                 else some (copyInto ys (newBuf other._capacity)) }

/-- Copy assignment with a fallible element copy:
`TMSArray copy(other); swap(copy);`. If constructing the temporary fails the
exception propagates before `swap` runs, so the left-hand side is untouched.
Returns (final state of `*this`, `true` on success / `false` on propagated failure). -/
def assignCopyE (lhs other : TMSArray α) (failOn : α → Bool) : TMSArray α × Bool :=
  match copyCtorE other failOn with
  | Except.error _ => (lhs, false)
  | Except.ok copy => ((swapOp lhs copy).1, true)

end TMSArray

namespace TMSArray

variable {α : Type} [Inhabited α]

/-! ### Basic lemmas about the embedding -/

theorem newBuf_length (n : Nat) : (newBuf (α := α) n).length = n := by
  simp [newBuf]

theorem copyInto_length (src dst : List α) (h : src.length ≤ dst.length) :
    (copyInto src dst).length = dst.length := by
  simp [copyInto]
  omega

theorem rotateList_length (l : List α) (f m last : Nat)
    (h1 : f ≤ m) (h2 : m ≤ last) (h3 : last ≤ l.length) :
    (rotateList l f m last).length = l.length := by
  simp [rotateList, List.length_take, List.length_drop]
  omega

theorem live_length (a : TMSArray α) (h : wf a) : a.live.length = a._size := by
  obtain ⟨h1, _, h3⟩ := h
  simp [live, List.length_take]
  omega

theorem data_eq_some (a : TMSArray α) (h : a._data.isSome = true) :
    a._data = some a.dataList := by
  cases hd : a._data with
  | none => rw [hd] at h; simp at h
  | some l => simp [dataList, hd]

/-! ### resize -/

theorem resize_size (a : TMSArray α) (n : Nat) : (a.resize n)._size = n := by
  unfold resize
  split <;> rfl

theorem resize_eq_of_le (a : TMSArray α) (n : Nat) (h : n ≤ a._capacity) :
    a.resize n = { a with _size := n } := by
  unfold resize
  rw [if_neg (by omega)]

theorem resize_eq_of_gt (a : TMSArray α) (n : Nat) (h : a._capacity < n) :
    a.resize n =
      { _capacity := max (a._capacity * 2) n
      , _size := n
      , _data := some (copyInto a.live (newBuf (max (a._capacity * 2) n))) } := by
  unfold resize
  rw [if_pos (by omega)]

theorem resize_wf (a : TMSArray α) (n : Nat) (hw : wf a) : wf (a.resize n) := by
  obtain ⟨h1, h2, h3⟩ := hw
  by_cases hc : n ≤ a._capacity
  · rw [resize_eq_of_le a n hc]
    exact ⟨hc, h2, h3⟩
  · rw [resize_eq_of_gt a n (by omega)]
    refine ⟨le_max_right _ _, by simp; omega, ?_⟩
    simp only [dataList, Option.getD_some]
    rw [copyInto_length]
    · exact newBuf_length _
    · rw [newBuf_length]
      have := live_length a ⟨h1, h2, h3⟩
      omega

theorem resize_dataList_take (a : TMSArray α) (n : Nat) (hw : wf a) :
    (a.resize n).dataList.take a._size = a.live := by
  by_cases hc : n ≤ a._capacity
  · rw [resize_eq_of_le a n hc]
    rfl
  · rw [resize_eq_of_gt a n (by omega)]
    have hl := live_length a hw
    simp only [dataList, Option.getD_some, copyInto]
    rw [List.take_append_of_le_length (by omega), List.take_of_length_le (by omega)]

/-! ### constructors and assignment -/

theorem mk_size (n : Nat) : (mk (α := α) n)._size = n := rfl

theorem mk_capacity (n : Nat) : (mk (α := α) n)._capacity = max n DEFAULT_CAP := rfl

theorem mk_wf (n : Nat) : wf (mk (α := α) n) := by
  refine ⟨le_max_left _ _, ?_, ?_⟩ <;>
    simp [mk, dataList, newBuf_length, DEFAULT_CAP]

theorem copyCtor_size (other : TMSArray α) : (copyCtor other)._size = other._size := rfl

theorem copyCtor_capacity (other : TMSArray α) :
    (copyCtor other)._capacity = other._capacity := rfl

theorem copyCtor_wf (other : TMSArray α) (hw : wf other) : wf (copyCtor other) := by
  obtain ⟨h1, h2, h3⟩ := hw
  by_cases hc : other._capacity = 0
  · refine ⟨?_, ?_, ?_⟩ <;>
      simp [copyCtor, size, dataList, if_pos hc, hc]
    omega
  · refine ⟨?_, ?_, ?_⟩
    · simpa [copyCtor, size] using h1
    · simp [copyCtor, if_neg hc]
      omega
    · simp only [copyCtor, dataList, if_neg hc, Option.getD_some]
      rw [copyInto_length]
      · exact newBuf_length _
      · rw [newBuf_length]
        have := live_length other ⟨h1, h2, h3⟩
        omega

theorem copyCtor_live (other : TMSArray α) (hw : wf other) :
    (copyCtor other).live = other.live := by
  have hl := live_length other hw
  simp only [live, dataList] at hl ⊢
  by_cases hc : other._capacity = 0
  · have hs : other._size = 0 := by have := hw.1; omega
    simp [copyCtor, size, hs]
  · simp only [copyCtor, size, live, dataList, Option.getD_some, if_neg hc, copyInto]
    rw [List.take_append_of_le_length (by omega), List.take_of_length_le (by omega)]

end TMSArray

namespace TMSArray

variable {α : Type} [Inhabited α]

/-! ### insert and erase characterizations -/

theorem take_length_append (A B : List α) (n : Nat) (hA : A.length = n) :
    (A ++ B).take n = A := by
  rw [← hA, List.take_left]

theorem rotate_insert_take (buf L : List α) (v : α) (d s : Nat)
    (hbuf : buf.take s = L) (hlen : s + 1 ≤ buf.length) (hd : d ≤ s) (hL : L.length = s) :
    (rotateList (buf.set s v) d s (s + 1)).take (s + 1) = L.take d ++ v :: L.drop d := by
  have hset : buf.set s v = L ++ v :: buf.drop (s + 1) := by
    rw [List.set_eq_take_cons_drop v (by omega), hbuf]
  rw [rotateList, hset]
  have h1 : (L ++ v :: buf.drop (s + 1)).take d = L.take d := by
    rw [List.take_append_of_le_length (by omega)]
  have h2 : (L ++ v :: buf.drop (s + 1)).take (s + 1) = L ++ [v] := by
    rw [List.take_append_eq_append_take, List.take_of_length_le (by omega), hL]
    simp
  have h3 : (L ++ v :: buf.drop (s + 1)).take s = L := by
    rw [List.take_append_eq_append_take, List.take_of_length_le (by omega), hL]
    simp
  rw [h1, h2, h3]
  have h4 : (L ++ [v]).drop s = [v] := by
    rw [← hL, List.drop_left]
  rw [h4]
  rw [take_length_append _ _ _ (by simp [List.length_take, List.length_drop, hL]; omega)]
  simp

theorem rotate_erase_take (buf L : List α) (d s : Nat)
    (hbuf : buf.take s = L) (hlen : s ≤ buf.length) (hd : d < s) (hL : L.length = s) :
    (rotateList buf d (d + 1) s).take (s - 1) = L.take d ++ L.drop (d + 1) := by
  rw [rotateList]
  have h1 : buf.take d = L.take d := by
    rw [← hbuf, List.take_take, Nat.min_eq_left (by omega)]
  have h3 : buf.take (d + 1) = L.take (d + 1) := by
    rw [← hbuf, List.take_take, Nat.min_eq_left (by omega)]
  rw [h1, hbuf, h3]
  rw [List.append_assoc (L.take d ++ L.drop (d + 1))]
  rw [take_length_append _ _ _ (by simp [List.length_take, List.length_drop, hL]; omega)]

theorem insert_spec (a : TMSArray α) (d : Nat) (v : α) (hw : wf a) (hd : d ≤ a._size) :
    (a.insert d v).1.live = a.live.take d ++ v :: a.live.drop d ∧
    wf (a.insert d v).1 ∧
    (a.insert d v).1._size = a._size + 1 ∧
    (a.insert d v).1._capacity = (a.resize (a._size + 1))._capacity ∧
    (a.insert d v).2 = d := by
  have hRw : wf (a.resize (a._size + 1)) := resize_wf a _ hw
  have hRs : (a.resize (a._size + 1))._size = a._size + 1 := resize_size a _
  have hRt : (a.resize (a._size + 1)).dataList.take a._size = a.live :=
    resize_dataList_take a _ hw
  have hcap : a._size + 1 ≤ (a.resize (a._size + 1))._capacity := by
    have h := hRw.1
    omega
  have hsome : (a.resize (a._size + 1))._data = some (a.resize (a._size + 1)).dataList :=
    data_eq_some _ (hRw.2.1.mpr (by omega))
  have hlen : ((a.resize (a._size + 1))._data.getD []).length
      = (a.resize (a._size + 1))._capacity := hRw.2.2
  have hfst : (a.insert d v).1 =
      { _capacity := (a.resize (a._size + 1))._capacity
      , _size := a._size + 1
      , _data := some (rotateList ((a.resize (a._size + 1)).dataList.set a._size v)
          d a._size (a._size + 1)) } := by
    simp only [insert, size]
    rw [hsome]
    simp [hRs]
  refine ⟨?_, ?_, ?_, ?_, rfl⟩
  · rw [hfst]
    simp only [live, dataList, Option.getD_some]
    exact rotate_insert_take _ _ v d a._size hRt (by omega) hd (live_length a hw)
  · rw [hfst]
    refine ⟨hcap, by simp; omega, ?_⟩
    simp only [dataList, Option.getD_some]
    rw [rotateList_length _ _ _ _ hd (by omega) (by simp [List.length_set]; omega)]
    simp [List.length_set, hlen]
  · rw [hfst]
  · rw [hfst]

theorem erase_spec (a : TMSArray α) (d : Nat) (hw : wf a) (hd : d < a._size) :
    (a.erase d).1.live = a.live.take d ++ a.live.drop (d + 1) ∧
    wf (a.erase d).1 ∧
    (a.erase d).1._size = a._size - 1 ∧
    (a.erase d).1._capacity = a._capacity ∧
    (a.erase d).1._data.isSome = a._data.isSome ∧
    (a.erase d).1.dataList.length = a.dataList.length ∧
    (a.erase d).2 = d := by
  have hw1 : a._size ≤ a._capacity := hw.1
  have hcap : 0 < a._capacity := by omega
  have hsome : a._data = some a.dataList := data_eq_some _ (hw.2.1.mpr hcap)
  have hlen : a.dataList.length = a._capacity := hw.2.2
  have hlen2 : (a._data.getD []).length = a._capacity := hw.2.2
  have hrl : (rotateList a.dataList d (d + 1) a._size).length = a.dataList.length :=
    rotateList_length _ _ _ _ (by omega) (by omega) (by omega)
  have hrl2 : (rotateList (a._data.getD []) d (d + 1) a._size).length
      = (a._data.getD []).length := hrl
  have hfst : (a.erase d).1 =
      { _capacity := a._capacity
      , _size := a._size - 1
      , _data := some (rotateList a.dataList d (d + 1) a._size) } := by
    simp only [erase, size, endPos]
    rw [hsome]
    simp only [Option.map_some']
    rw [resize_eq_of_le _ _ (by simp; omega)]
  refine ⟨?_, ?_, ?_, ?_, ?_, ?_, rfl⟩
  · rw [hfst]
    simp only [live, dataList, Option.getD_some]
    exact rotate_erase_take _ _ d a._size rfl (by omega) hd (live_length a hw)
  · rw [hfst]
    refine ⟨by simp; omega, by simp [hcap], ?_⟩
    simp only [dataList, Option.getD_some]
    exact hrl2.trans hlen2
  · rw [hfst]
  · rw [hfst]
  · rw [hfst, hsome]
    simp
  · rw [hfst]
    simp only [dataList, Option.getD_some]
    exact hrl2
  
end TMSArray

namespace TMSArray

variable {α : Type} [Inhabited α]

/-! ### move, swap and fallible copy -/

theorem moveCtor_fst (a : TMSArray α) : (moveCtor a).1 = a := rfl

theorem emptyState_wf : wf (raw 0 0 none : TMSArray α) := by
  simp [wf, dataList]

theorem wf_claimInv (a : TMSArray α) (h : wf a) : claimInv a := by
  obtain ⟨h1, h2, h3⟩ := h
  refine ⟨h1, fun hc => h2.mpr hc, fun hc => ?_⟩
  cases hd : a._data with
  | none => rfl
  | some l =>
    rw [hd] at h2
    simp [hc] at h2

theorem copyElems_cases (failOn : α → Bool) (l : List α) :
    (copyElems failOn l = Except.ok l ∧ ∀ x ∈ l, failOn x = false) ∨
    (copyElems failOn l = Except.error () ∧ ∃ x ∈ l, failOn x = true) := by
  induction l with
  | nil => exact Or.inl ⟨rfl, by simp⟩
  | cons x xs ih =>
    by_cases hx : failOn x = true
    · exact Or.inr ⟨by simp [copyElems, hx], ⟨x, by simp, hx⟩⟩
    · rcases ih with ⟨hok, hall⟩ | ⟨herr, y, hy, hfy⟩
      · refine Or.inl ⟨by simp [copyElems, hx, hok], ?_⟩
        intro z hz
        rcases List.mem_cons.mp hz with hz | hz
        · simpa [hz] using hx
        · exact hall z hz
      · exact Or.inr ⟨by simp [copyElems, hx, herr], ⟨y, by simp [hy], hfy⟩⟩

theorem copyCtorE_cases (other : TMSArray α) (failOn : α → Bool) :
    (copyCtorE other failOn = Except.ok (copyCtor other) ∧
       ∀ x ∈ other.live, failOn x = false) ∨
    (copyCtorE other failOn = Except.error () ∧ ∃ x ∈ other.live, failOn x = true) := by
  rcases copyElems_cases failOn other.live with ⟨hok, hall⟩ | ⟨herr, hex⟩
  · refine Or.inl ⟨?_, hall⟩
    rw [copyCtorE, hok]
    rfl
  · refine Or.inr ⟨?_, hex⟩
    rw [copyCtorE, herr]

end TMSArray

namespace TMSArray

variable {α : Type} [Inhabited α]

/-! ### Claim theorems -/

/-- C7: for every `n >= 0`, constructing a container with initial length `n` yields
`length() == n` and `capacity() == max(n, MIN_CAPACITY)` where the built-in minimum
`MIN_CAPACITY` (`DEFAULT_CAP`) is `42`; hence `capacity() >= n`. -/
theorem claim_C7_sized_construction (n : Nat) :
    (mk (α := α) n)._size = n ∧
    (mk (α := α) n)._capacity = max n DEFAULT_CAP ∧
    DEFAULT_CAP = 42 ∧
    n ≤ (mk (α := α) n)._capacity :=
  ⟨rfl, rfl, rfl, le_max_left _ _⟩

/-- C9: for every container satisfying the representation invariant, resizing to the
current length changes no observable state at all: the resulting container is equal
to the original (same length, capacity, and storage). -/
theorem claim_C9_resize_noop (a : TMSArray α) (hw : wf a) :
    a.resize a._size = a := by
  rw [resize_eq_of_le a _ hw.1]

/-- C9 witness: `resize(length())` on a concretely constructed container is the
identity. -/
theorem claim_C9_witness :
    wf (mk 3 : TMSArray Int) ∧ (mk 3 : TMSArray Int).resize (mk 3 : TMSArray Int)._size = mk 3 :=
  ⟨by decide, claim_C9_resize_noop (mk 3) (by decide)⟩

/-- C10: self-assignment `a = a` goes through copy-then-swap and leaves the container
observably unchanged: same length, same capacity, and the same live elements in the
same order. -/
theorem claim_C10_self_assignment (a : TMSArray α) (hw : wf a) :
    (assignCopy a a)._size = a._size ∧
    (assignCopy a a)._capacity = a._capacity ∧
    (assignCopy a a).live = a.live :=
  ⟨rfl, rfl, copyCtor_live a hw⟩

/-- C10 witness: self-assignment of a concrete container preserves length, capacity
and the live sequence. -/
theorem claim_C10_witness :
    wf (mk 2 : TMSArray Int) ∧
    (assignCopy (mk 2 : TMSArray Int) (mk 2))._size = (mk 2 : TMSArray Int)._size ∧
    (assignCopy (mk 2 : TMSArray Int) (mk 2))._capacity = (mk 2 : TMSArray Int)._capacity ∧
    (assignCopy (mk 2 : TMSArray Int) (mk 2)).live = (mk 2 : TMSArray Int).live :=
  ⟨by decide, claim_C10_self_assignment (mk 2) (by decide)⟩

/-- C5 counterexample: the claim asserts that after `b = move(a)` (for every existing
pair, i.e. move assignment) the moved-from `a` has `length() == 0` and
`capacity() == 0`. Move assignment is `swap(other)`, so the source receives the
destination's previous state: with `b = mk 0` (a default-constructed container of
capacity 42) and `a = mk 0`, the moved-from `a` ends with capacity 42, not 0. -/
theorem claim_C5_counterexample :
    ¬ (((assignMove (mk 0 : TMSArray Int) (mk 0)).2)._size = 0 ∧
       ((assignMove (mk 0 : TMSArray Int) (mk 0)).2)._capacity = 0) := by
  decide

/-- C5 (amended): after move construction `b(move(a))` the moved-from `a` is left with
`length 0`, `capacity 0` and empty storage, satisfies the invariant, and the new
object holds exactly `a`'s old state; after move assignment `b = move(a)` the
moved-from `a` ends up holding `b`'s previous state (so it is empty only if `b` was),
remains valid (invariant-satisfying), and `b` holds `a`'s old state. -/
theorem claim_C5_amended (a b : TMSArray α) (ha : wf a) (hb : wf b) :
    (moveCtor a).2._size = 0 ∧
    (moveCtor a).2._capacity = 0 ∧
    (moveCtor a).2._data = none ∧
    wf (moveCtor a).2 ∧
    (moveCtor a).1 = a ∧
    (assignMove b a).2 = b ∧
    wf (assignMove b a).2 ∧
    (assignMove b a).1 = a :=
  ⟨rfl, rfl, rfl, emptyState_wf, rfl, rfl, hb, rfl⟩

/-- C5 witness: the amended statement at concrete containers. -/
theorem claim_C5_witness :
    wf (mk 4 : TMSArray Int) ∧ wf (mk 0 : TMSArray Int) ∧
    (moveCtor (mk 4 : TMSArray Int)).2._size = 0 ∧
    (moveCtor (mk 4 : TMSArray Int)).2._capacity = 0 ∧
    (assignMove (mk 0 : TMSArray Int) (mk 4)).2 = mk 0 := by
  have h := claim_C5_amended (mk 4 : TMSArray Int) (mk 0) (by decide) (by decide)
  exact ⟨by decide, by decide, h.1, h.2.1, h.2.2.2.2.2.1⟩

/-- C6: copy assignment is copy-then-swap. If the element copy while building the
temporary fails, the failure is propagated (`false` flag) and the left-hand side is
returned completely unmodified; on success the left-hand side is exactly a full copy
of the right-hand side (element-wise equal live sequence, same length and capacity,
invariant preserved). Failure occurs exactly when copying some live element of the
right-hand side fails. The right-hand side is taken by const reference and is never
modified. -/
theorem claim_C6_copy_assignment_strong (lhs rhs : TMSArray α) (failOn : α → Bool)
    (hr : wf rhs) :
    ((assignCopyE lhs rhs failOn).2 = false → (assignCopyE lhs rhs failOn).1 = lhs) ∧
    ((assignCopyE lhs rhs failOn).2 = true →
       (assignCopyE lhs rhs failOn).1 = copyCtor rhs ∧
       (assignCopyE lhs rhs failOn).1.live = rhs.live ∧
       (assignCopyE lhs rhs failOn).1._size = rhs._size ∧
       (assignCopyE lhs rhs failOn).1._capacity = rhs._capacity ∧
       wf (assignCopyE lhs rhs failOn).1) ∧
    ((assignCopyE lhs rhs failOn).2 = false ↔ ∃ x ∈ rhs.live, failOn x = true) := by
  rcases copyCtorE_cases rhs failOn with ⟨hok, hall⟩ | ⟨herr, hex⟩
  · have hres : assignCopyE lhs rhs failOn = (copyCtor rhs, true) := by
      rw [assignCopyE, hok]
      rfl
    rw [hres]
    refine ⟨by simp, fun _ => ⟨rfl, copyCtor_live rhs hr, rfl, rfl, copyCtor_wf rhs hr⟩, ?_⟩
    simp only [Bool.true_eq_false, false_iff]
    rintro ⟨x, hx, hfx⟩
    rw [hall x hx] at hfx
    exact Bool.false_ne_true hfx
  · have hres : assignCopyE lhs rhs failOn = (lhs, false) := by
      rw [assignCopyE, herr]
    rw [hres]
    exact ⟨fun _ => rfl, by simp, by simpa using hex⟩

/-- C6 witness: with an element-copy that fails on the value `1`, assigning from a
container holding only zeros succeeds, and the failure predicate is indeed false on
every live element. -/
theorem claim_C6_witness :
    wf (mk 2 : TMSArray Int) ∧
    ((assignCopyE (mk 0 : TMSArray Int) (mk 2) (fun x => x == 1)).2 = false ↔
      ∃ x ∈ (mk 2 : TMSArray Int).live, (x == 1) = true) := by
  have h := claim_C6_copy_assignment_strong (mk 0 : TMSArray Int) (mk 2)
    (fun x => x == 1) (by decide)
  exact ⟨by decide, h.2.2⟩

end TMSArray

namespace TMSArray

variable {α : Type} [Inhabited α]

/-- C2: for every container with capacity `c` and every `n > c`, `resize(n)` sets the
capacity to `max(c * 2, n)` — which is both `>= n` and `>= 2 * c` — sets the length
to `n`, and every element that was live before the call retains its value and its
relative order (the old live range is preserved position-by-position as a prefix of
the new live range). -/
theorem claim_C2_growth (a : TMSArray α) (n : Nat) (hw : wf a) (hgt : a._capacity < n) :
    (a.resize n)._capacity = max (a._capacity * 2) n ∧
    n ≤ (a.resize n)._capacity ∧
    2 * a._capacity ≤ (a.resize n)._capacity ∧
    (a.resize n)._size = n ∧
    (a.resize n).live.take a._size = a.live ∧
    (∀ i, i < a._size → ((a.resize n).live)[i]? = (a.live)[i]?) := by
  have hcap : (a.resize n)._capacity = max (a._capacity * 2) n := by
    rw [resize_eq_of_gt a n hgt]
  have hsz := resize_size a n
  have htake : (a.resize n).dataList.take a._size = a.live := resize_dataList_take a n hw
  have hlive : (a.resize n).live.take a._size = a.live := by
    simp only [live, hsz]
    rw [List.take_take, Nat.min_eq_left (by have := hw.1; omega)]
    exact htake
  refine ⟨hcap, by rw [hcap]; omega, by rw [hcap]; omega, hsz, hlive, ?_⟩
  intro i hi
  rw [← hlive]
  simp [List.getElem?_take, hi]

/-- C2 witness: growing a default-capacity (42) container to 100 elements sets the
capacity to `max(84, 100) = 100` and the length to 100. -/
theorem claim_C2_witness :
    wf (mk 0 : TMSArray Int) ∧
    (mk 0 : TMSArray Int)._capacity < 100 ∧
    ((mk 0 : TMSArray Int).resize 100)._capacity = max ((mk 0 : TMSArray Int)._capacity * 2) 100 ∧
    ((mk 0 : TMSArray Int).resize 100)._size = 100 := by
  have h := claim_C2_growth (mk 0 : TMSArray Int) 100 (by decide) (by decide)
  exact ⟨by decide, by decide, h.1, h.2.2.2.1⟩

/-- C3: for every valid position `d` in `[begin, end]` of the live range,
`insert(d, v)` increases the length by one, returns the cursor `d` (recomputed from
`begin()` after any reallocation, hence valid), places `v` at position `d`, leaves
elements before `d` unchanged, and shifts every element originally at or after `d`
one slot toward the end with relative order preserved. -/
theorem claim_C3_insert (a : TMSArray α) (d : Nat) (v : α) (hw : wf a) (hd : d ≤ a._size) :
    (a.insert d v).1._size = a._size + 1 ∧
    (a.insert d v).2 = d ∧
    (a.insert d v).1.live = a.live.take d ++ v :: a.live.drop d ∧
    ((a.insert d v).1.live)[d]? = some v ∧
    (∀ i, i < d → ((a.insert d v).1.live)[i]? = (a.live)[i]?) ∧
    (∀ i, d ≤ i → i < a._size → ((a.insert d v).1.live)[i + 1]? = (a.live)[i]?) := by
  obtain ⟨hlive, hwf, hsz, hcap, hsnd⟩ := insert_spec a d v hw hd
  have hL : a.live.length = a._size := live_length a hw
  have hlt : (a.live.take d).length = d := by simp [List.length_take]; omega
  refine ⟨hsz, hsnd, hlive, ?_, ?_, ?_⟩
  · rw [hlive, List.getElem?_append_right (le_of_eq hlt), hlt]
    simp
  · intro i hi
    rw [hlive, List.getElem?_append, hlt, if_pos hi]
    simp [List.getElem?_take, hi]
  · intro i hdi hisz
    rw [hlive, List.getElem?_append_right (by omega), hlt]
    have h1 : i + 1 - d = (i - d) + 1 := by omega
    rw [h1, List.getElem?_cons_succ, List.getElem?_drop]
    congr 1
    omega

/-- C3 witness: inserting 7 at position 1 of a two-element container bumps the length
and places 7 at position 1 of the live range. -/
theorem claim_C3_witness :
    wf (mk 2 : TMSArray Int) ∧
    1 ≤ (mk 2 : TMSArray Int)._size ∧
    ((mk 2 : TMSArray Int).insert 1 7).1._size = (mk 2 : TMSArray Int)._size + 1 ∧
    (((mk 2 : TMSArray Int).insert 1 7).1.live)[1]? = some 7 := by
  have h := claim_C3_insert (mk 2 : TMSArray Int) 1 7 (by decide) (by decide)
  exact ⟨by decide, by decide, h.1, h.2.2.2.1⟩

/-- C4: for every non-empty container and valid live position `d`, `erase(d)`
decreases the length by one, keeps capacity and storage (no reallocation: same
allocation status and buffer size), removes the element at `d` shifting every
subsequent element one slot toward the front in order, and returns the cursor `d`,
which now holds the element that followed the erased one (`none`/end when the last
element was erased). The operation is total (never fails). -/
theorem claim_C4_erase (a : TMSArray α) (d : Nat) (hw : wf a)
    (h0 : 0 < a._size) (hd : d < a._size) :
    (a.erase d).1._size = a._size - 1 ∧
    (a.erase d).2 = d ∧
    (a.erase d).1._capacity = a._capacity ∧
    (a.erase d).1._data.isSome = a._data.isSome ∧
    (a.erase d).1.dataList.length = a.dataList.length ∧
    (a.erase d).1.live = a.live.take d ++ a.live.drop (d + 1) ∧
    ((a.erase d).1.live)[d]? = (a.live)[d + 1]? := by
  obtain ⟨hlive, hwf, hsz, hcap, hsome, hlen, hsnd⟩ := erase_spec a d hw hd
  have hL := live_length a hw
  have hlt : (a.live.take d).length = d := by simp [List.length_take]; omega
  refine ⟨hsz, hsnd, hcap, hsome, hlen, hlive, ?_⟩
  rw [hlive, List.getElem?_append_right (le_of_eq hlt), hlt, Nat.sub_self,
    List.getElem?_drop]

/-- C4 witness: erasing position 0 of a two-element container shrinks the length by
one and retains capacity. -/
theorem claim_C4_witness :
    wf (mk 2 : TMSArray Int) ∧
    0 < (mk 2 : TMSArray Int)._size ∧
    ((mk 2 : TMSArray Int).erase 0).1._size = (mk 2 : TMSArray Int)._size - 1 ∧
    ((mk 2 : TMSArray Int).erase 0).1._capacity = (mk 2 : TMSArray Int)._capacity := by
  have h := claim_C4_erase (mk 2 : TMSArray Int) 0 (by decide) (by decide) (by decide)
  exact ⟨by decide, by decide, h.1, h.2.2.1⟩

/-- C8: erasing at the cursor returned by `insert(d, v)` restores the original live
sequence — the same elements in the same order as before the insert. -/
theorem claim_C8_insert_erase_inverse (a : TMSArray α) (d : Nat) (v : α)
    (hw : wf a) (hd : d ≤ a._size) :
    ((a.insert d v).1.erase ((a.insert d v).2)).1.live = a.live := by
  obtain ⟨hlive, hwf, hsz, hcap, hsnd⟩ := insert_spec a d v hw hd
  rw [hsnd]
  obtain ⟨helive, _, _, _, _, _, _⟩ := erase_spec (a.insert d v).1 d hwf (by omega)
  rw [helive, hlive]
  have hL := live_length a hw
  have hlt : (a.live.take d).length = d := by simp [List.length_take]; omega
  have h1 : (a.live.take d ++ v :: a.live.drop d).take d = a.live.take d :=
    take_length_append _ _ _ hlt
  have h2 : (a.live.take d ++ v :: a.live.drop d).drop (d + 1) = a.live.drop d := by
    rw [List.drop_append_eq_append_drop, List.drop_eq_nil_of_le (by omega), hlt]
    have h3 : d + 1 - d = 1 := by omega
    rw [h3]
    simp
  rw [h1, h2, List.take_append_drop]

/-- C8 witness: on a concrete two-element container, inserting 5 at position 1 and
erasing at the returned cursor restores the original live sequence. -/
theorem claim_C8_witness :
    wf (mk 2 : TMSArray Int) ∧
    1 ≤ (mk 2 : TMSArray Int)._size ∧
    (((mk 2 : TMSArray Int).insert 1 5).1.erase (((mk 2 : TMSArray Int).insert 1 5).2)).1.live
      = (mk 2 : TMSArray Int).live := by
  have h := claim_C8_insert_erase_inverse (mk 2 : TMSArray Int) 1 5 (by decide) (by decide)
  exact ⟨by decide, by decide, h⟩

end TMSArray

namespace TMSArray

variable {α : Type} [Inhabited α]

/-- C1: every public operation — construction (default or sized), copy construction,
move construction, copy assignment, move assignment, `resize`, `insert`, `erase`,
`push_back`, `pop_back`, `swap` — preserves the data-model invariant on successful
completion: `0 <= length <= capacity`, storage non-null whenever `capacity > 0`, and
storage equal to the empty sentinel whenever `capacity == 0` (`claimInv`; each result
in fact satisfies the full representation invariant `wf`, which also records that the
allocation holds exactly `capacity` slots). The hypotheses are the operations'
documented preconditions: valid inputs, `d` a position in `[begin, end]` for
`insert`, `e` a live position and non-emptiness for `erase`/`pop_back`. -/
theorem claim_C1_invariant_preservation (a b : TMSArray α) (n d e : Nat) (v : α)
    (ha : wf a) (hb : wf b) (hd : d ≤ a._size) (he : e < a._size) (hs : 0 < a._size) :
    (wf (mk (α := α) n) ∧ claimInv (mk (α := α) n)) ∧
    (wf (copyCtor a) ∧ claimInv (copyCtor a)) ∧
    (wf (moveCtor a).1 ∧ claimInv (moveCtor a).1) ∧
    (wf (moveCtor a).2 ∧ claimInv (moveCtor a).2) ∧
    (wf (assignCopy b a) ∧ claimInv (assignCopy b a)) ∧
    (wf (assignMove b a).1 ∧ claimInv (assignMove b a).1) ∧
    (wf (assignMove b a).2 ∧ claimInv (assignMove b a).2) ∧
    (wf (a.resize n) ∧ claimInv (a.resize n)) ∧
    (wf (a.insert d v).1 ∧ claimInv (a.insert d v).1) ∧
    (wf (a.erase e).1 ∧ claimInv (a.erase e).1) ∧
    (wf (a.push_back v) ∧ claimInv (a.push_back v)) ∧
    (wf a.pop_back ∧ claimInv a.pop_back) ∧
    (wf (swapOp a b).1 ∧ claimInv (swapOp a b).1) ∧
    (wf (swapOp a b).2 ∧ claimInv (swapOp a b).2) := by
  have hmk := mk_wf (α := α) n
  have hcc := copyCtor_wf a ha
  have hmv1 : wf (moveCtor a).1 := ha
  have hmv2 : wf (moveCtor a).2 := emptyState_wf
  have hac : wf (assignCopy b a) := hcc
  have hrv : wf (a.resize n) := resize_wf a n ha
  have hins : wf (a.insert d v).1 := (insert_spec a d v ha hd).2.1
  have hers : wf (a.erase e).1 := (erase_spec a e ha he).2.1
  have hpb : wf (a.push_back v) := (insert_spec a a._size v ha (le_refl _)).2.1
  have hppb : wf a.pop_back := (erase_spec a (a._size - 1) ha (by omega)).2.1
  exact ⟨⟨hmk, wf_claimInv _ hmk⟩, ⟨hcc, wf_claimInv _ hcc⟩, ⟨hmv1, wf_claimInv _ hmv1⟩,
    ⟨hmv2, wf_claimInv _ hmv2⟩, ⟨hac, wf_claimInv _ hac⟩, ⟨ha, wf_claimInv _ ha⟩,
    ⟨hb, wf_claimInv _ hb⟩, ⟨hrv, wf_claimInv _ hrv⟩, ⟨hins, wf_claimInv _ hins⟩,
    ⟨hers, wf_claimInv _ hers⟩, ⟨hpb, wf_claimInv _ hpb⟩, ⟨hppb, wf_claimInv _ hppb⟩,
    ⟨hb, wf_claimInv _ hb⟩, ⟨ha, wf_claimInv _ ha⟩⟩

/-- C1 witness: all the preconditions hold at a concrete pair of containers, and two
representative results (an insert and a pop) satisfy the invariant. -/
theorem claim_C1_witness :
    wf (mk 1 : TMSArray Int) ∧ wf (mk 0 : TMSArray Int) ∧
    1 ≤ (mk 1 : TMSArray Int)._size ∧ 0 < (mk 1 : TMSArray Int)._size ∧
    (wf ((mk 1 : TMSArray Int).insert 1 7).1 ∧ claimInv ((mk 1 : TMSArray Int).insert 1 7).1) ∧
    (wf (mk 1 : TMSArray Int).pop_back ∧ claimInv (mk 1 : TMSArray Int).pop_back) := by
  have h := claim_C1_invariant_preservation (mk 1 : TMSArray Int) (mk 0) 5 1 0 7
    (by decide) (by decide) (by decide) (by decide) (by decide)
  exact ⟨by decide, by decide, by decide, by decide,
    h.2.2.2.2.2.2.2.2.1, h.2.2.2.2.2.2.2.2.2.2.2.1⟩

end TMSArray
